import Mathlib

/-!
Shallow embedding of the FlowSync reconciliation engine (`src/sync.js`).

The reconciliation core (`syncInstanceFlows`) is a pure function of the
fetched remote flow collection, the last-known per-instance state, and the
file system, apart from logging.  We embed it as a Lean function:

* JS objects keyed by flow id become association lists (`StateMap`); JS
  objects cannot hold duplicate keys, so maps of interest have nodup keys
  and theorems that need per-key uniqueness assume it.
* The file system becomes an association list from path to content
  (`FS`); `fs.writeFile` replaces or appends, and the sole modelled
  failure of the archival `git mv` is an absent source path, the case the
  code's catch branch comments on (`it may have been manually removed`).
* `JSON.stringify(JSON.parse(x), null, 4)` is the opaque payload
  reformatting; it is kept abstract as a function argument `reformat`,
  since no property of the engine depends on its behaviour.
* `__dirname` (an absolute directory) is modelled by the constant
  `REPO_PATH`; `path.join` on already-slash-free segments is string
  concatenation with `/`.
-/

namespace FlowSync

/-- A remote flow entity, as consumed from the JSON array returned by
`GET /api/v1/chatflows`.  `flowData` is `none` when the field is missing;
the JS falsiness test `!flow.flowData` also treats the empty string as
missing.  `type` is `none` when the field is missing. -/
structure Flow where
  id : String
  name : String
  flowData : Option String
  updatedDate : String
  type : Option String
  deriving Repr, DecidableEq

/-- One recorded state entry, as stored by
`currentState[id] = { updatedDate, name: safeName, fileName: uniqueFileName, type: flowType }`.
A missing `fileName` or `type` in a hand-edited state file is modelled by
the empty string (the JS code tests them with `||`, i.e. falsiness). -/
structure StateEntry where
  updatedDate : String
  name : String
  fileName : String
  type : String
  deriving Repr, DecidableEq

/-- The per-instance state mapping, keyed by flow id. -/
abbrev StateMap := List (String × StateEntry)

/-- The file system: an association list from absolute path to content. -/
abbrev FS := List (String × String)

/-- Lookup in a state mapping (first matching key). -/
def lookupSt : StateMap → String → Option StateEntry
  | [], _ => none
  | (k, v) :: rest, id => if k = id then some v else lookupSt rest id

/-- `currentState[id] = v`: update in place when the key exists, append
otherwise (JS object insertion semantics). -/
def setEntry : StateMap → String → StateEntry → StateMap
  | [], k, v => [(k, v)]
  | (k', v') :: rest, k, v =>
    if k' = k then (k, v) :: rest else (k', v') :: setEntry rest k v

/-- `delete currentState[id]`. -/
def removeEntry : StateMap → String → StateMap
  | [], _ => []
  | (k, v) :: rest, id =>
    if k = id then removeEntry rest id else (k, v) :: removeEntry rest id

/-- Lookup of a path in the file system. -/
def lookupFS : FS → String → Option String
  | [], _ => none
  | (p, c) :: rest, q => if p = q then some c else lookupFS rest q

/-- `fs.writeFile path content`: replace the content when the path exists,
create the file otherwise. -/
def writeFS : FS → String → String → FS
  | [], p, c => [(p, c)]
  | (p', c') :: rest, p, c =>
    if p' = p then (p, c) :: rest else (p', c') :: writeFS rest p c

/-- Removal of a path from the file system (the source side of a move). -/
def removeFS : FS → String → FS
  | [], _ => []
  | (p, c) :: rest, q =>
    if p = q then removeFS rest q else (p, c) :: removeFS rest q

/-- Boolean membership of a string in a list of strings (the model of
`new Set(flows.map(f => f.id)).has(id)`). -/
def memStr : String → List String → Bool
  | _, [] => false
  | s, t :: ts => if s = t then true else memStr s ts

/-- Models `__dirname`: the absolute repository directory. -/
def REPO_PATH : String := "/repo"

/-- The characters replaced by the JS regex `/[\s\/]/g` (ASCII whitespace
plus the path separator). -/
def isSpaceLike (c : Char) : Bool :=
  c = ' ' || c = '\t' || c = '\n' || c = '\r' || c = '\x0b' || c = '\x0c' || c = '/'

/-- `name.replace(/[\s\/]/g, '_')`.  Stated on the character list so that
concrete instances reduce in the kernel. -/
def safeName (name : String) : String :=
  ⟨name.data.map (fun c => if isSpaceLike c then '_' else c)⟩

/-- Lowercasing, character by character (`String.toLowerCase`), stated on
the character list so that concrete instances reduce in the kernel. -/
def strToLower (s : String) : String :=
  ⟨s.data.map Char.toLower⟩

/-- `id.slice(-4)`: the last four characters (the whole string when it is
shorter). -/
def last4 (id : String) : String :=
  ⟨id.data.drop (id.data.length - 4)⟩

/-- The unique file name derived for a flow:
`` `${safeName}_id_${last4}.json` ``. -/
def uniqueFileName (name id : String) : String :=
  safeName name ++ "_id_" ++ last4 id ++ ".json"

/-- `(type || 'uncategorized').toLowerCase()`: the category directory used
for a flow; a missing or empty type falls back to `uncategorized`. -/
def flowTypeOf (t : Option String) : String :=
  strToLower (match t with
   | none => "uncategorized"
   | some s => if s = "" then "uncategorized" else s)

/-- The JS falsiness test `!flow.flowData`, negated: the flow has a
payload body exactly when `flowData` is present and non-empty. -/
def hasFlowData (f : Flow) : Bool :=
  match f.flowData with
  | none => false
  | some s => if s = "" then false else true

/-- The write condition
`!lastState[id] || lastState[id].updatedDate !== updatedDate`. -/
def needsWrite (lastState : StateMap) (f : Flow) : Bool :=
  match lookupSt lastState f.id with
  | none => true
  | some e => if e.updatedDate = f.updatedDate then false else true

/-- The state entry recorded for a processed flow. -/
def entryOf (f : Flow) : StateEntry :=
  ⟨f.updatedDate, safeName f.name, uniqueFileName f.name f.id, flowTypeOf f.type⟩

/-- The relative path pushed onto `changedFiles`:
`` `flows/${instance.name}/${flowType}/${uniqueFileName}` ``. -/
def relPathOf (inst : String) (f : Flow) : String :=
  "flows/" ++ inst ++ "/" ++ flowTypeOf f.type ++ "/" ++ uniqueFileName f.name f.id

/-- `path.join(REPO_PATH, 'flows', instance.name)`. -/
def instanceDirOf (inst : String) : String :=
  REPO_PATH ++ "/flows/" ++ inst

/-- The absolute path a changed flow is written to:
`path.join(typeDir, uniqueFileName)`. -/
def livePathOf (inst : String) (f : Flow) : String :=
  instanceDirOf inst ++ "/" ++ flowTypeOf f.type ++ "/" ++ uniqueFileName f.name f.id

/-- `flowState.type || 'uncategorized'` (note: not lowercased again at
archival time). -/
def archiveTypeOf (e : StateEntry) : String :=
  if e.type = "" then "uncategorized" else e.type

/-- `` flowState.fileName || `${flowState.name}_id_${id.slice(-4)}.json` ``. -/
def archiveFileName (id : String) (e : StateEntry) : String :=
  if e.fileName = "" then e.name ++ "_id_" ++ last4 id ++ ".json" else e.fileName

/-- The live (source) path of a recorded entry being archived. -/
def sourcePathOf (inst : String) (p : String × StateEntry) : String :=
  instanceDirOf inst ++ "/" ++ archiveTypeOf p.2 ++ "/" ++ archiveFileName p.1 p.2

/-- The destination path of an archival, under the `deleted/` subdirectory
of the recorded category directory. -/
def destPathOf (inst : String) (p : String × StateEntry) : String :=
  instanceDirOf inst ++ "/" ++ archiveTypeOf p.2 ++ "/deleted/" ++ archiveFileName p.1 p.2

/-- The write loop (`for (const flow of flows)`): skips payload-less
flows; writes the reformatted payload and records the relative path when
the write condition holds against the immutable `lastState`; always
refreshes the `currentState` entry of a payload-bearing flow. -/
def processFlows (reformat : String → String) (inst : String) (lastState : StateMap) :
    List Flow → StateMap → FS → List String → StateMap × FS × List String
  | [], cur, fs, changed => (cur, fs, changed)
  | f :: rest, cur, fs, changed =>
    if hasFlowData f then
      let doWrite := needsWrite lastState f
      let fs' := if doWrite then
          writeFS fs (livePathOf inst f) (reformat (f.flowData.getD "")) else fs
      let changed' := if doWrite then changed ++ [relPathOf inst f] else changed
      processFlows reformat inst lastState rest (setEntry cur f.id (entryOf f)) fs' changed'
    else
      processFlows reformat inst lastState rest cur fs changed

/-- The archival loop (`for (const id of lastKnownIds)`): for every
recorded entry whose id is absent from the current remote ids, attempt to
move its file under `deleted/` with `git mv` (no `-f`): the move succeeds
exactly when the source path exists and no file already occupies the
destination; on success record the destination path.  Any failure —
source absent, or destination already present (`git mv` refuses to
overwrite) — takes the catch branch, which records nothing.  Both the
success and the failure branch drop the state entry. -/
def processDeletions (inst : String) (ids : List String) :
    StateMap → StateMap → FS → List String → StateMap × FS × List String
  | [], cur, fs, moved => (cur, fs, moved)
  | p :: rest, cur, fs, moved =>
    if memStr p.1 ids then
      processDeletions inst ids rest cur fs moved
    else
      match lookupFS fs (sourcePathOf inst p), lookupFS fs (destPathOf inst p) with
      | some c, none =>
        processDeletions inst ids rest (removeEntry cur p.1)
          (writeFS (removeFS fs (sourcePathOf inst p)) (destPathOf inst p) c)
          (moved ++ [destPathOf inst p])
      | _, _ =>
        processDeletions inst ids rest (removeEntry cur p.1) fs moved

/-- The outcome of one `syncInstanceFlows` call.  `newState` is the
in-memory `currentState` at the end of the cycle; `persistedState` is the
state a subsequent `getLastKnownState` would observe, reflecting that
`saveState` runs only when `changedFiles.length > 0 || movedFiles.length > 0`. -/
structure SyncResult where
  instanceName : String
  changedFiles : List String
  movedFiles : List String
  newState : StateMap
  persistedState : StateMap
  fs : FS
  stateFile : String
  deriving Repr, DecidableEq

/-- The per-instance reconciliation cycle of `syncInstanceFlows`, after
the fetch has produced `flows` and `getLastKnownState` has produced
`lastState`. -/
def syncInstanceFlows (reformat : String → String) (inst : String)
    (flows : List Flow) (lastState : StateMap) (fs : FS) : SyncResult :=
  let w := processFlows reformat inst lastState flows lastState fs []
  let ids := flows.map Flow.id
  let d := processDeletions inst ids lastState w.1 w.2.1 []
  { instanceName := inst
    changedFiles := w.2.2
    movedFiles := d.2.2
    newState := d.1
    persistedState :=
      if w.2.2.length > 0 || d.2.2.length > 0 then d.1 else lastState
    fs := d.2.1
    stateFile := ".flow_state_" ++ inst ++ ".json" }

/-- The recorded entries whose ids are absent from the current remote
collection: exactly the entries the archival loop acts on. -/
def deletedEntries (flows : List Flow) (lastState : StateMap) : StateMap :=
  lastState.filter (fun p => !(memStr p.1 (flows.map Flow.id)))

/-- The file system after the write phase of the cycle, before the
archival loop runs. -/
def fsAfterWrites (reformat : String → String) (inst : String)
    (flows : List Flow) (lastState : StateMap) (fs : FS) : FS :=
  (processFlows reformat inst lastState flows lastState fs []).2.1

/-- `getLastKnownState`: the try/catch around `readFile` + `JSON.parse`.
`content = none` models a read failure (state file absent); `parse`
returning `none` models invalid JSON; both yield the empty mapping. -/
def getLastKnownState (parse : String → Option StateMap)
    (content : Option String) : StateMap :=
  match content with
  | none => []
  | some s =>
    match parse s with
    | none => []
    | some st => st

/-- `commitParts.join(', ')`. -/
def joinParts : List String → String
  | [] => ""
  | [a] => a
  | a :: rest => a ++ ", " ++ joinParts rest

/-- The commit message built by `syncFlows`:
`` `Sync: ${commitParts.join(', ')} flow(s)` `` where the parts are
`` `${n} updated` `` and `` `${m} archived` ``, each present only when its
count is positive. -/
def commitMessage (n m : Nat) : String :=
  "Sync: " ++
    joinParts ((if n > 0 then [toString n ++ " updated"] else []) ++
               (if m > 0 then [toString m ++ " archived"] else [])) ++
    " flow(s)"

/-- The aggregated write list of a sweep, over the per-instance results
that completed (a failed instance contributes nothing). -/
def allChangedOf (results : List (List String × List String)) : List String :=
  (results.map Prod.fst).flatten

/-- The aggregated archival list of a sweep. -/
def allMovedOf (results : List (List String × List String)) : List String :=
  (results.map Prod.snd).flatten

/-- The commit decision of `syncFlows`: a commit (with its message) is
made exactly when the aggregated diff is non-empty. -/
def syncFlowsCommit (results : List (List String × List String)) : Option String :=
  if (allChangedOf results).length > 0 || (allMovedOf results).length > 0 then
    some (commitMessage (allChangedOf results).length (allMovedOf results).length)
  else
    none

/-- Concrete sample flow (the scenario of the spec's testable properties):
`{id:"abc123", name:"Test Flow", flowData:"{\"a\":1}", updatedDate:"T1", type:"chatflow"}`. -/
def flowEx : Flow :=
  ⟨"abc123", "Test Flow", some "\x7b\"a\":1\x7d", "T1", some "chatflow"⟩

/-- Concrete sample recorded state entry, as the write phase would record
it for `flowEx`. -/
def entryEx : StateEntry :=
  ⟨"T1", "Test_Flow", "Test_Flow_id_c123.json", "chatflow"⟩

/-! ### Basic lemmas about the map and file-system operations -/

theorem syncInstanceFlows_changedFiles (reformat : String → String) (inst : String)
    (flows : List Flow) (lastState : StateMap) (fs : FS) :
    (syncInstanceFlows reformat inst flows lastState fs).changedFiles
      = (processFlows reformat inst lastState flows lastState fs []).2.2 := rfl

theorem syncInstanceFlows_movedFiles (reformat : String → String) (inst : String)
    (flows : List Flow) (lastState : StateMap) (fs : FS) :
    (syncInstanceFlows reformat inst flows lastState fs).movedFiles
      = (processDeletions inst (flows.map Flow.id) lastState
          (processFlows reformat inst lastState flows lastState fs []).1
          (processFlows reformat inst lastState flows lastState fs []).2.1 []).2.2 := rfl

theorem syncInstanceFlows_newState (reformat : String → String) (inst : String)
    (flows : List Flow) (lastState : StateMap) (fs : FS) :
    (syncInstanceFlows reformat inst flows lastState fs).newState
      = (processDeletions inst (flows.map Flow.id) lastState
          (processFlows reformat inst lastState flows lastState fs []).1
          (processFlows reformat inst lastState flows lastState fs []).2.1 []).1 := rfl

theorem syncInstanceFlows_fs (reformat : String → String) (inst : String)
    (flows : List Flow) (lastState : StateMap) (fs : FS) :
    (syncInstanceFlows reformat inst flows lastState fs).fs
      = (processDeletions inst (flows.map Flow.id) lastState
          (processFlows reformat inst lastState flows lastState fs []).1
          (processFlows reformat inst lastState flows lastState fs []).2.1 []).2.1 := rfl

theorem syncInstanceFlows_persistedState (reformat : String → String) (inst : String)
    (flows : List Flow) (lastState : StateMap) (fs : FS) :
    (syncInstanceFlows reformat inst flows lastState fs).persistedState
      = if (syncInstanceFlows reformat inst flows lastState fs).changedFiles.length > 0
           || (syncInstanceFlows reformat inst flows lastState fs).movedFiles.length > 0
        then (syncInstanceFlows reformat inst flows lastState fs).newState
        else lastState := rfl

theorem memStr_iff (s : String) : ∀ l : List String, memStr s l = true ↔ s ∈ l
  | [] => by simp [memStr]
  | t :: ts => by
    by_cases h : s = t
    · simp [memStr, h]
    · simp [memStr, h, memStr_iff s ts]

theorem lookupSt_setEntry_self (k : String) (v : StateEntry) :
    ∀ m : StateMap, lookupSt (setEntry m k v) k = some v
  | [] => by simp [setEntry, lookupSt]
  | (k', v') :: rest => by
    by_cases h : k' = k
    · simp [setEntry, h, lookupSt]
    · simp [setEntry, h, lookupSt, lookupSt_setEntry_self k v rest]

theorem lookupSt_setEntry_ne (k q : String) (v : StateEntry) (hne : k ≠ q) :
    ∀ m : StateMap, lookupSt (setEntry m k v) q = lookupSt m q
  | [] => by simp [setEntry, lookupSt, hne]
  | (k', v') :: rest => by
    by_cases h : k' = k
    · simp [setEntry, h, lookupSt, hne]
    · simp only [setEntry, if_neg h, lookupSt]
      by_cases h2 : k' = q
      · simp [h2]
      · simp [h2, lookupSt_setEntry_ne k q v hne rest]

theorem lookupSt_removeEntry_self (k : String) :
    ∀ m : StateMap, lookupSt (removeEntry m k) k = none
  | [] => by simp [removeEntry, lookupSt]
  | (k', v') :: rest => by
    by_cases h : k' = k
    · simp [removeEntry, h, lookupSt_removeEntry_self k rest]
    · simp [removeEntry, h, lookupSt, lookupSt_removeEntry_self k rest]

theorem lookupSt_removeEntry_ne (k q : String) (hne : k ≠ q) :
    ∀ m : StateMap, lookupSt (removeEntry m k) q = lookupSt m q
  | [] => by simp [removeEntry]
  | (k', v') :: rest => by
    by_cases h : k' = k
    · have h2 : k' ≠ q := by rw [h]; exact hne
      simp [removeEntry, h, lookupSt, hne, h2, lookupSt_removeEntry_ne k q hne rest]
    · simp only [removeEntry, if_neg h, lookupSt]
      by_cases h2 : k' = q
      · simp [h2]
      · simp [h2, lookupSt_removeEntry_ne k q hne rest]

theorem lookupSt_removeEntry_none (k q : String) (m : StateMap)
    (h : lookupSt m q = none) : lookupSt (removeEntry m k) q = none := by
  by_cases hk : k = q
  · rw [hk]; exact lookupSt_removeEntry_self q m
  · rw [lookupSt_removeEntry_ne k q hk m]; exact h

theorem lookupSt_mem (k : String) (v : StateEntry) :
    ∀ m : StateMap, lookupSt m k = some v → (k, v) ∈ m
  | [], h => by simp [lookupSt] at h
  | (k', v') :: rest, h => by
    by_cases hk : k' = k
    · simp [lookupSt, hk] at h
      simp [hk, h]
    · simp only [lookupSt, if_neg hk] at h
      exact List.mem_cons_of_mem _ (lookupSt_mem k v rest h)

theorem mem_lookupSt_ne_none (k : String) (v : StateEntry) :
    ∀ m : StateMap, (k, v) ∈ m → lookupSt m k ≠ none
  | [], h => by simp at h
  | (k', v') :: rest, h => by
    by_cases hk : k' = k
    · simp [lookupSt, hk]
    · simp only [lookupSt, if_neg hk]
      rcases List.mem_cons.mp h with h1 | h2
      · exact absurd (congrArg Prod.fst h1).symm hk
      · exact mem_lookupSt_ne_none k v rest h2

theorem lookupFS_writeFS_self (p : String) (c : String) :
    ∀ fs : FS, lookupFS (writeFS fs p c) p = some c
  | [] => by simp [writeFS, lookupFS]
  | (p', c') :: rest => by
    by_cases h : p' = p
    · simp [writeFS, h, lookupFS]
    · simp [writeFS, h, lookupFS, lookupFS_writeFS_self p c rest]

theorem lookupFS_writeFS_ne (p q : String) (c : String) (hne : p ≠ q) :
    ∀ fs : FS, lookupFS (writeFS fs p c) q = lookupFS fs q
  | [] => by simp [writeFS, lookupFS, hne]
  | (p', c') :: rest => by
    by_cases h : p' = p
    · simp [writeFS, h, lookupFS, hne]
    · simp only [writeFS, if_neg h, lookupFS]
      by_cases h2 : p' = q
      · simp [h2]
      · simp [h2, lookupFS_writeFS_ne p q c hne rest]

theorem lookupFS_removeFS_ne (p q : String) (hne : p ≠ q) :
    ∀ fs : FS, lookupFS (removeFS fs p) q = lookupFS fs q
  | [] => by simp [removeFS]
  | (p', c') :: rest => by
    by_cases h : p' = p
    · have h2 : p' ≠ q := by rw [h]; exact hne
      simp [removeFS, h, lookupFS, hne, h2, lookupFS_removeFS_ne p q hne rest]
    · simp only [removeFS, if_neg h, lookupFS]
      by_cases h2 : p' = q
      · simp [h2]
      · simp [h2, lookupFS_removeFS_ne p q hne rest]

/-! ### Characterization of the write loop -/

theorem processFlows_changed (reformat : String → String) (inst : String) (lastState : StateMap) :
    ∀ (flows : List Flow) (cur : StateMap) (fs : FS) (changed : List String),
    (processFlows reformat inst lastState flows cur fs changed).2.2
      = changed ++
        (flows.filter (fun f => hasFlowData f && needsWrite lastState f)).map (relPathOf inst)
  | [], cur, fs, changed => by simp [processFlows]
  | f :: rest, cur, fs, changed => by
    by_cases hd : hasFlowData f = true
    · by_cases hw : needsWrite lastState f = true
      · simp [processFlows, hd, hw, processFlows_changed reformat inst lastState rest,
          List.filter_cons]
      · simp [processFlows, hd, hw, processFlows_changed reformat inst lastState rest,
          List.filter_cons]
    · simp [processFlows, hd, processFlows_changed reformat inst lastState rest,
        List.filter_cons]

theorem processFlows_lookup_frame (reformat : String → String) (inst : String)
    (lastState : StateMap) (id : String) :
    ∀ (flows : List Flow) (cur : StateMap) (fs : FS) (changed : List String),
    (∀ g ∈ flows, g.id = id → hasFlowData g = false) →
    lookupSt (processFlows reformat inst lastState flows cur fs changed).1 id = lookupSt cur id
  | [], cur, fs, changed, _ => by simp [processFlows]
  | f :: rest, cur, fs, changed, h => by
    by_cases hd : hasFlowData f = true
    · have hne : f.id ≠ id := by
        intro he
        have hf := h f (List.mem_cons_self f rest) he
        rw [hf] at hd
        exact Bool.false_ne_true hd
      simp only [processFlows, if_pos hd]
      rw [processFlows_lookup_frame reformat inst lastState id rest _ _ _
        (fun g hg => h g (List.mem_cons_of_mem f hg))]
      exact lookupSt_setEntry_ne f.id id (entryOf f) hne cur
    · simp only [processFlows, if_neg hd]
      exact processFlows_lookup_frame reformat inst lastState id rest _ _ _
        (fun g hg => h g (List.mem_cons_of_mem f hg))

theorem processFlows_lookup_mem (reformat : String → String) (inst : String)
    (lastState : StateMap) (f : Flow) :
    ∀ (flows : List Flow) (cur : StateMap) (fs : FS) (changed : List String),
    (flows.map Flow.id).Nodup → f ∈ flows → hasFlowData f = true →
    lookupSt (processFlows reformat inst lastState flows cur fs changed).1 f.id
      = some (entryOf f)
  | [], _, _, _, _, hf, _ => absurd hf (List.not_mem_nil f)
  | g :: rest, cur, fs, changed, hnd, hf, hd => by
    simp only [List.map_cons, List.nodup_cons] at hnd
    rcases List.mem_cons.mp hf with h1 | h2
    · subst h1
      simp only [processFlows, if_pos hd]
      rw [processFlows_lookup_frame reformat inst lastState f.id rest _ _ _ ?frame]
      · exact lookupSt_setEntry_self f.id (entryOf f) cur
      case frame =>
        intro g hg he
        exact absurd (he ▸ List.mem_map_of_mem Flow.id hg) hnd.1
    · by_cases hgd : hasFlowData g = true
      · simp only [processFlows, if_pos hgd]
        exact processFlows_lookup_mem reformat inst lastState f rest _ _ _ hnd.2 h2 hd
      · simp only [processFlows, if_neg hgd]
        exact processFlows_lookup_mem reformat inst lastState f rest _ _ _ hnd.2 h2 hd

/-! ### Characterization of the archival loop -/

theorem processDeletions_none_mono (inst : String) (ids : List String) (id : String) :
    ∀ (entries cur : StateMap) (fs : FS) (moved : List String),
    lookupSt cur id = none →
    lookupSt (processDeletions inst ids entries cur fs moved).1 id = none
  | [], cur, fs, moved, h => by simpa [processDeletions] using h
  | p :: rest, cur, fs, moved, h => by
    by_cases hm : memStr p.1 ids = true
    · simp only [processDeletions, if_pos hm]
      exact processDeletions_none_mono inst ids id rest _ _ _ h
    · simp only [processDeletions, if_neg hm]
      cases hs : lookupFS fs (sourcePathOf inst p) with
      | some c =>
        cases hd : lookupFS fs (destPathOf inst p) with
        | some d =>
          exact processDeletions_none_mono inst ids id rest _ _ _
            (lookupSt_removeEntry_none p.1 id cur h)
        | none =>
          exact processDeletions_none_mono inst ids id rest _ _ _
            (lookupSt_removeEntry_none p.1 id cur h)
      | none =>
        exact processDeletions_none_mono inst ids id rest _ _ _
          (lookupSt_removeEntry_none p.1 id cur h)

theorem processDeletions_keep (inst : String) (ids : List String) (id : String)
    (hid : memStr id ids = true) :
    ∀ (entries cur : StateMap) (fs : FS) (moved : List String),
    lookupSt (processDeletions inst ids entries cur fs moved).1 id = lookupSt cur id
  | [], cur, fs, moved => by simp [processDeletions]
  | p :: rest, cur, fs, moved => by
    by_cases hm : memStr p.1 ids = true
    · simp only [processDeletions, if_pos hm]
      exact processDeletions_keep inst ids id hid rest _ _ _
    · have hne : p.1 ≠ id := by
        intro he; rw [he, hid] at hm; exact hm rfl
      simp only [processDeletions, if_neg hm]
      cases hs : lookupFS fs (sourcePathOf inst p) with
      | some c =>
        cases hd : lookupFS fs (destPathOf inst p) with
        | some d =>
          rw [processDeletions_keep inst ids id hid rest _ _ _]
          exact lookupSt_removeEntry_ne p.1 id hne cur
        | none =>
          rw [processDeletions_keep inst ids id hid rest _ _ _]
          exact lookupSt_removeEntry_ne p.1 id hne cur
      | none =>
        rw [processDeletions_keep inst ids id hid rest _ _ _]
        exact lookupSt_removeEntry_ne p.1 id hne cur

theorem processDeletions_removed (inst : String) (ids : List String) :
    ∀ (entries cur : StateMap) (fs : FS) (moved : List String)
    (p : String × StateEntry), p ∈ entries → memStr p.1 ids = false →
    lookupSt (processDeletions inst ids entries cur fs moved).1 p.1 = none
  | [], _, _, _, p, hp, _ => absurd hp (List.not_mem_nil p)
  | q :: rest, cur, fs, moved, p, hp, hm => by
    rcases List.mem_cons.mp hp with h1 | h2
    · subst h1
      have hm' : ¬ memStr p.1 ids = true := by rw [hm]; exact Bool.false_ne_true
      simp only [processDeletions, if_neg hm']
      cases hs : lookupFS fs (sourcePathOf inst p) with
      | some c =>
        cases hd : lookupFS fs (destPathOf inst p) with
        | some d =>
          exact processDeletions_none_mono inst ids p.1 rest _ _ _
            (lookupSt_removeEntry_self p.1 cur)
        | none =>
          exact processDeletions_none_mono inst ids p.1 rest _ _ _
            (lookupSt_removeEntry_self p.1 cur)
      | none =>
        exact processDeletions_none_mono inst ids p.1 rest _ _ _
          (lookupSt_removeEntry_self p.1 cur)
    · by_cases hqm : memStr q.1 ids = true
      · simp only [processDeletions, if_pos hqm]
        exact processDeletions_removed inst ids rest _ _ _ p h2 hm
      · simp only [processDeletions, if_neg hqm]
        cases hs : lookupFS fs (sourcePathOf inst q) with
        | some c =>
          cases hd : lookupFS fs (destPathOf inst q) with
          | some d => exact processDeletions_removed inst ids rest _ _ _ p h2 hm
          | none => exact processDeletions_removed inst ids rest _ _ _ p h2 hm
        | none => exact processDeletions_removed inst ids rest _ _ _ p h2 hm

theorem processDeletions_skip (inst : String) (ids : List String) :
    ∀ (entries cur : StateMap) (fs : FS) (moved : List String),
    (∀ p ∈ entries, memStr p.1 ids = true) →
    processDeletions inst ids entries cur fs moved = (cur, fs, moved)
  | [], cur, fs, moved, _ => by simp [processDeletions]
  | p :: rest, cur, fs, moved, h => by
    have hm : memStr p.1 ids = true := h p (List.mem_cons_self p rest)
    simp only [processDeletions, if_pos hm]
    exact processDeletions_skip inst ids rest _ _ _
      (fun q hq => h q (List.mem_cons_of_mem p hq))

theorem processDeletions_moved_sub (inst : String) (ids : List String) :
    ∀ (entries cur : StateMap) (fs : FS) (moved : List String) (q : String),
    q ∈ (processDeletions inst ids entries cur fs moved).2.2 →
    q ∈ moved ∨ ∃ p ∈ entries, q = destPathOf inst p
  | [], cur, fs, moved, q, hq => by
    simp only [processDeletions] at hq
    exact Or.inl hq
  | p :: rest, cur, fs, moved, q, hq => by
    by_cases hm : memStr p.1 ids = true
    · simp only [processDeletions, if_pos hm] at hq
      rcases processDeletions_moved_sub inst ids rest _ _ _ q hq with h | ⟨r, hr, he⟩
      · exact Or.inl h
      · exact Or.inr ⟨r, List.mem_cons_of_mem p hr, he⟩
    · simp only [processDeletions, if_neg hm] at hq
      cases hs : lookupFS fs (sourcePathOf inst p) with
      | some c =>
        cases hd : lookupFS fs (destPathOf inst p) with
        | some d =>
          rw [hs, hd] at hq
          rcases processDeletions_moved_sub inst ids rest _ _ _ q hq with h | ⟨r, hr, he⟩
          · exact Or.inl h
          · exact Or.inr ⟨r, List.mem_cons_of_mem p hr, he⟩
        | none =>
          rw [hs, hd] at hq
          rcases processDeletions_moved_sub inst ids rest _ _ _ q hq with h | ⟨r, hr, he⟩
          · rcases List.mem_append.mp h with h1 | h2
            · exact Or.inl h1
            · exact Or.inr ⟨p, List.mem_cons_self p rest, (List.mem_singleton.mp h2)⟩
          · exact Or.inr ⟨r, List.mem_cons_of_mem p hr, he⟩
      | none =>
        rw [hs] at hq
        rcases processDeletions_moved_sub inst ids rest _ _ _ q hq with h | ⟨r, hr, he⟩
        · exact Or.inl h
        · exact Or.inr ⟨r, List.mem_cons_of_mem p hr, he⟩

theorem processDeletions_success (inst : String) (ids : List String)
    (entries : StateMap) : ∀ (cur : StateMap) (fs : FS) (moved : List String),
    (∀ p ∈ entries.filter (fun p => !(memStr p.1 ids)),
        lookupFS fs (sourcePathOf inst p) ≠ none) →
    (∀ p ∈ entries.filter (fun p => !(memStr p.1 ids)),
        lookupFS fs (destPathOf inst p) = none) →
    ((entries.filter (fun p => !(memStr p.1 ids))).map (sourcePathOf inst) ++
     (entries.filter (fun p => !(memStr p.1 ids))).map (destPathOf inst)).Nodup →
    (processDeletions inst ids entries cur fs moved).2.2
      = moved ++ (entries.filter (fun p => !(memStr p.1 ids))).map (destPathOf inst)
    ∧ (∀ q, q ∉ (entries.filter (fun p => !(memStr p.1 ids))).map (sourcePathOf inst) →
        q ∉ (entries.filter (fun p => !(memStr p.1 ids))).map (destPathOf inst) →
        lookupFS (processDeletions inst ids entries cur fs moved).2.1 q = lookupFS fs q)
    ∧ (∀ p ∈ entries.filter (fun p => !(memStr p.1 ids)),
        lookupFS (processDeletions inst ids entries cur fs moved).2.1 (destPathOf inst p)
          = lookupFS fs (sourcePathOf inst p)) := by
  induction entries with
  | nil =>
    intro cur fs moved _ _ _
    refine ⟨by simp [processDeletions], fun q _ _ => by simp [processDeletions], ?_⟩
    intro p hp
    simp at hp
  | cons p rest ih =>
    intro cur fs moved hsrc hdst hnd
    by_cases hm : memStr p.1 ids = true
    · have hfil : (p :: rest).filter (fun p => !(memStr p.1 ids))
          = rest.filter (fun p => !(memStr p.1 ids)) := by
        simp [List.filter_cons, hm]
      rw [hfil] at hsrc hdst hnd ⊢
      simp only [processDeletions, if_pos hm]
      exact ih cur fs moved hsrc hdst hnd
    · have hmb : memStr p.1 ids = false := Bool.eq_false_iff.mpr hm
      have hfil : (p :: rest).filter (fun p => !(memStr p.1 ids))
          = p :: rest.filter (fun p => !(memStr p.1 ids)) := by
        simp [List.filter_cons, hmb]
      rw [hfil] at hsrc hdst hnd ⊢
      have hsp : lookupFS fs (sourcePathOf inst p) ≠ none :=
        hsrc p (List.mem_cons_self _ _)
      have hdp : lookupFS fs (destPathOf inst p) = none :=
        hdst p (List.mem_cons_self _ _)
      cases hs : lookupFS fs (sourcePathOf inst p) with
      | none => exact absurd hs hsp
      | some c =>
        simp only [processDeletions, if_neg hm, hs, hdp]
        have hnd' : (sourcePathOf inst p
              ∉ (rest.filter (fun p => !(memStr p.1 ids))).map (sourcePathOf inst) ++
                destPathOf inst p ::
                  (rest.filter (fun p => !(memStr p.1 ids))).map (destPathOf inst))
            ∧ ((rest.filter (fun p => !(memStr p.1 ids))).map (sourcePathOf inst) ++
                destPathOf inst p ::
                  (rest.filter (fun p => !(memStr p.1 ids))).map (destPathOf inst)).Nodup := by
          rw [List.map_cons, List.map_cons, List.cons_append, List.nodup_cons] at hnd
          exact hnd
      -- distilled distinctness facts
        have ha : sourcePathOf inst p
            ∉ (rest.filter (fun p => !(memStr p.1 ids))).map (sourcePathOf inst) :=
          fun h => hnd'.1 (List.mem_append.mpr (Or.inl h))
        have hb : sourcePathOf inst p ≠ destPathOf inst p :=
          fun h => hnd'.1 (List.mem_append.mpr (Or.inr (h ▸ List.mem_cons_self _ _)))
        have hrest := List.nodup_append.mp hnd'.2
        have hdD : (destPathOf inst p ::
            (rest.filter (fun p => !(memStr p.1 ids))).map (destPathOf inst)).Nodup :=
          hrest.2.1
        have he : destPathOf inst p
            ∉ (rest.filter (fun p => !(memStr p.1 ids))).map (destPathOf inst) :=
          (List.nodup_cons.mp hdD).1
        have hd : destPathOf inst p
            ∉ (rest.filter (fun p => !(memStr p.1 ids))).map (sourcePathOf inst) := by
          intro h
          exact hrest.2.2 h (List.mem_cons_self _ _)
        have hSD : ((rest.filter (fun p => !(memStr p.1 ids))).map (sourcePathOf inst) ++
            (rest.filter (fun p => !(memStr p.1 ids))).map (destPathOf inst)).Nodup := by
          refine List.nodup_append.mpr ⟨hrest.1, (List.nodup_cons.mp hdD).2, ?_⟩
          intro a haS haD
          exact hrest.2.2 haS (List.mem_cons_of_mem _ haD)
        -- on the updated file system every remaining source is still present
        have hfs1 : ∀ q ∈ rest.filter (fun p => !(memStr p.1 ids)),
            lookupFS (writeFS (removeFS fs (sourcePathOf inst p)) (destPathOf inst p) c)
              (sourcePathOf inst q) = lookupFS fs (sourcePathOf inst q) := by
          intro q hq
          have hqS : sourcePathOf inst q
              ∈ (rest.filter (fun p => !(memStr p.1 ids))).map (sourcePathOf inst) :=
            List.mem_map_of_mem _ hq
          have h1 : destPathOf inst p ≠ sourcePathOf inst q :=
            fun h => hd (h ▸ hqS)
          have h2 : sourcePathOf inst p ≠ sourcePathOf inst q :=
            fun h => ha (h ▸ hqS)
          rw [lookupFS_writeFS_ne _ _ c h1, lookupFS_removeFS_ne _ _ h2]
        have hsrc' : ∀ q ∈ rest.filter (fun p => !(memStr p.1 ids)),
            lookupFS (writeFS (removeFS fs (sourcePathOf inst p)) (destPathOf inst p) c)
              (sourcePathOf inst q) ≠ none := by
          intro q hq
          rw [hfs1 q hq]
          exact hsrc q (List.mem_cons_of_mem p hq)
        have hc : sourcePathOf inst p
            ∉ (rest.filter (fun p => !(memStr p.1 ids))).map (destPathOf inst) :=
          fun h => hnd'.1 (List.mem_append.mpr (Or.inr (List.mem_cons_of_mem _ h)))
        have hdst' : ∀ q ∈ rest.filter (fun p => !(memStr p.1 ids)),
            lookupFS (writeFS (removeFS fs (sourcePathOf inst p)) (destPathOf inst p) c)
              (destPathOf inst q) = none := by
          intro q hq
          have hqD : destPathOf inst q
              ∈ (rest.filter (fun p => !(memStr p.1 ids))).map (destPathOf inst) :=
            List.mem_map_of_mem _ hq
          have h1 : destPathOf inst p ≠ destPathOf inst q :=
            fun h => he (h ▸ hqD)
          have h2 : sourcePathOf inst p ≠ destPathOf inst q :=
            fun h => hc (h ▸ hqD)
          rw [lookupFS_writeFS_ne _ _ c h1, lookupFS_removeFS_ne _ _ h2]
          exact hdst q (List.mem_cons_of_mem p hq)
        obtain ⟨ih1, ih2, ih3⟩ := ih (removeEntry cur p.1)
          (writeFS (removeFS fs (sourcePathOf inst p)) (destPathOf inst p) c)
          (moved ++ [destPathOf inst p]) hsrc' hdst' hSD
        refine ⟨?_, ?_, ?_⟩
        · rw [ih1, List.map_cons, List.append_assoc, List.singleton_append]
        · intro q hqS hqD
          rw [List.map_cons, List.mem_cons] at hqS hqD
          push_neg at hqS hqD
          rw [ih2 q hqS.2 hqD.2, lookupFS_writeFS_ne _ _ c (Ne.symm hqD.1),
            lookupFS_removeFS_ne _ _ (Ne.symm hqS.1)]
        · intro r hr
          rcases List.mem_cons.mp hr with h1 | h2
          · subst h1
            rw [ih2 (destPathOf inst r) hd he, lookupFS_writeFS_self, hs]
          · rw [ih3 r h2, hfs1 r h2]

/-! ### Claim theorems -/

/-- C1: Idempotence of reconciliation.  Reconciling the same remote
collection a second time, against the state produced by the first
reconciliation, produces an empty write list and an empty archival list,
for any file system the second run sees.  The remote ids are assumed
pairwise distinct, as guaranteed for one instance. -/
theorem reconcile_idempotent (reformat : String → String) (inst : String)
    (flows : List Flow) (lastState : StateMap) (fs fs₂ : FS)
    (hids : (flows.map Flow.id).Nodup) :
    (syncInstanceFlows reformat inst flows
        (syncInstanceFlows reformat inst flows lastState fs).newState fs₂).changedFiles = []
    ∧ (syncInstanceFlows reformat inst flows
        (syncInstanceFlows reformat inst flows lastState fs).newState fs₂).movedFiles = [] := by
  have hA : ∀ f ∈ flows, hasFlowData f = true →
      lookupSt (syncInstanceFlows reformat inst flows lastState fs).newState f.id
        = some (entryOf f) := by
    intro f hf hd
    rw [syncInstanceFlows_newState]
    have hmem : memStr f.id (flows.map Flow.id) = true :=
      (memStr_iff _ _).mpr (List.mem_map_of_mem Flow.id hf)
    rw [processDeletions_keep inst _ f.id hmem lastState _ _ _]
    exact processFlows_lookup_mem reformat inst lastState f flows lastState fs [] hids hf hd
  have hB : ∀ k, lookupSt (syncInstanceFlows reformat inst flows lastState fs).newState k ≠ none →
      memStr k (flows.map Flow.id) = true := by
    intro k hk
    by_contra hkm
    have hkm' : memStr k (flows.map Flow.id) = false := Bool.eq_false_iff.mpr hkm
    apply hk
    rw [syncInstanceFlows_newState]
    have hframe : ∀ g ∈ flows, g.id = k → hasFlowData g = false := by
      intro g hg he
      exact absurd ((memStr_iff _ _).mpr (he ▸ List.mem_map_of_mem Flow.id hg)) hkm
    cases hls : lookupSt lastState k with
    | none =>
      apply processDeletions_none_mono
      rw [processFlows_lookup_frame reformat inst lastState k flows lastState fs [] hframe]
      exact hls
    | some e =>
      exact processDeletions_removed inst _ lastState _ _ _ (k, e)
        (lookupSt_mem k e lastState hls) hkm'
  constructor
  · rw [syncInstanceFlows_changedFiles, processFlows_changed, List.nil_append]
    rw [List.map_eq_nil_iff]
    rw [List.filter_eq_nil_iff]
    intro f hf
    by_cases hd : hasFlowData f = true
    · have hw : needsWrite (syncInstanceFlows reformat inst flows lastState fs).newState f
          = false := by
        simp [needsWrite, hA f hf hd, entryOf]
      simp [hd, hw]
    · simp [Bool.eq_false_iff.mpr hd]
  · rw [syncInstanceFlows_movedFiles]
    rw [processDeletions_skip inst (flows.map Flow.id)
      (syncInstanceFlows reformat inst flows lastState fs).newState _ _ _ ?hall]
    case hall =>
      intro p hp
      exact hB p.1 (mem_lookupSt_ne_none p.1 p.2 _ hp)

/-- Witness for C1 at a concrete input. -/
theorem reconcile_idempotent_witness :
    ([flowEx].map Flow.id).Nodup
    ∧ ((syncInstanceFlows id "inst" [flowEx]
          (syncInstanceFlows id "inst" [flowEx] [] []).newState []).changedFiles = []
       ∧ (syncInstanceFlows id "inst" [flowEx]
          (syncInstanceFlows id "inst" [flowEx] [] []).newState []).movedFiles = []) :=
  ⟨by decide, reconcile_idempotent id "inst" [flowEx] [] [] [] (by decide)⟩

/-- C2 counterexample: an id deleted upstream whose recorded live file
exists but whose `deleted/` destination is already occupied (the flow was
archived once before, re-created remotely, then deleted again).  `git mv`
without `-f` refuses to overwrite, so the catch branch runs: no archival
is recorded, the live file stays in place, and only the state entry is
dropped — refuting the claim that exactly one archival occurs (the file
moved to `deleted/`) for every such id. -/
theorem conservation_under_deletion_counterexample :
    (syncInstanceFlows id "inst" [] [("abc123", entryEx)]
        [("/repo/flows/inst/chatflow/Test_Flow_id_c123.json", "X"),
         ("/repo/flows/inst/chatflow/deleted/Test_Flow_id_c123.json", "OLD")]).movedFiles
      = []
    ∧ lookupFS (syncInstanceFlows id "inst" [] [("abc123", entryEx)]
        [("/repo/flows/inst/chatflow/Test_Flow_id_c123.json", "X"),
         ("/repo/flows/inst/chatflow/deleted/Test_Flow_id_c123.json", "OLD")]).fs
        "/repo/flows/inst/chatflow/Test_Flow_id_c123.json" = some "X"
    ∧ lookupSt (syncInstanceFlows id "inst" [] [("abc123", entryEx)]
        [("/repo/flows/inst/chatflow/Test_Flow_id_c123.json", "X"),
         ("/repo/flows/inst/chatflow/deleted/Test_Flow_id_c123.json", "OLD")]).newState
        "abc123" = none := by decide

/-- C2 (amended): for every id present in `lastState` but absent from the
current remote ids, the id is absent from the returned state; and
provided each such entry's recorded live file exists after the write
phase, no file already occupies its `deleted/` destination, and the
involved paths are pairwise distinct, exactly one archival occurs per
deleted entry: its file is moved, not erased, to the `deleted/`
subdirectory of its recorded category directory, where its content is
found afterwards. -/
theorem conservation_under_deletion (reformat : String → String) (inst : String)
    (flows : List Flow) (lastState : StateMap) (fs : FS)
    (hsrc : ∀ p ∈ deletedEntries flows lastState,
        lookupFS (fsAfterWrites reformat inst flows lastState fs) (sourcePathOf inst p) ≠ none)
    (hfree : ∀ p ∈ deletedEntries flows lastState,
        lookupFS (fsAfterWrites reformat inst flows lastState fs) (destPathOf inst p) = none)
    (hdist : ((deletedEntries flows lastState).map (sourcePathOf inst) ++
              (deletedEntries flows lastState).map (destPathOf inst)).Nodup) :
    (syncInstanceFlows reformat inst flows lastState fs).movedFiles
      = (deletedEntries flows lastState).map (destPathOf inst)
    ∧ ∀ p ∈ deletedEntries flows lastState,
        lookupSt (syncInstanceFlows reformat inst flows lastState fs).newState p.1 = none
        ∧ lookupFS (syncInstanceFlows reformat inst flows lastState fs).fs (destPathOf inst p)
            = lookupFS (fsAfterWrites reformat inst flows lastState fs) (sourcePathOf inst p) := by
  simp only [deletedEntries, fsAfterWrites] at hsrc hfree hdist ⊢
  obtain ⟨h1, h2, h3⟩ := processDeletions_success inst (flows.map Flow.id) lastState
    (processFlows reformat inst lastState flows lastState fs []).1
    (processFlows reformat inst lastState flows lastState fs []).2.1 [] hsrc hfree hdist
  refine ⟨?_, ?_⟩
  · rw [syncInstanceFlows_movedFiles, h1, List.nil_append]
  · intro p hp
    have hmf := List.mem_filter.mp hp
    have hmem : memStr p.1 (flows.map Flow.id) = false := by
      have h2' := hmf.2
      simpa using h2'
    refine ⟨?_, ?_⟩
    · rw [syncInstanceFlows_newState]
      exact processDeletions_removed inst _ lastState _ _ _ p hmf.1 hmem
    · rw [syncInstanceFlows_fs]
      exact h3 p hp

/-- Witness for C2's amended theorem at a concrete input: the live file
exists and the destination is free, so the single deleted entry is
archived. -/
theorem conservation_under_deletion_witness :
    (∀ p ∈ deletedEntries ([] : List Flow) [("abc123", entryEx)],
        lookupFS (fsAfterWrites id "inst" [] [("abc123", entryEx)]
            [("/repo/flows/inst/chatflow/Test_Flow_id_c123.json", "X")])
          (sourcePathOf "inst" p) ≠ none)
    ∧ (∀ p ∈ deletedEntries ([] : List Flow) [("abc123", entryEx)],
        lookupFS (fsAfterWrites id "inst" [] [("abc123", entryEx)]
            [("/repo/flows/inst/chatflow/Test_Flow_id_c123.json", "X")])
          (destPathOf "inst" p) = none)
    ∧ ((deletedEntries ([] : List Flow) [("abc123", entryEx)]).map (sourcePathOf "inst") ++
       (deletedEntries ([] : List Flow) [("abc123", entryEx)]).map (destPathOf "inst")).Nodup
    ∧ (syncInstanceFlows id "inst" [] [("abc123", entryEx)]
          [("/repo/flows/inst/chatflow/Test_Flow_id_c123.json", "X")]).movedFiles
        = (deletedEntries ([] : List Flow) [("abc123", entryEx)]).map (destPathOf "inst") :=
  ⟨by decide, by decide, by decide,
    (conservation_under_deletion id "inst" [] [("abc123", entryEx)]
      [("/repo/flows/inst/chatflow/Test_Flow_id_c123.json", "X")]
      (by decide) (by decide) (by decide)).1⟩

/-- C3 counterexample: a cycle whose only event is a failed archival (the
source file is absent and nothing else changed).  The entry is dropped
from the in-memory state, but since both result lists are empty,
`saveState` is skipped and the state persisted at the end of the cycle
still contains the id — contradicting the claim that the id is absent
from the per-instance state persisted at the end of that cycle. -/
theorem archival_failure_persist_counterexample :
    (syncInstanceFlows id "inst" [] [("abc123", entryEx)] []).changedFiles = []
    ∧ (syncInstanceFlows id "inst" [] [("abc123", entryEx)] []).movedFiles = []
    ∧ lookupSt (syncInstanceFlows id "inst" [] [("abc123", entryEx)] []).newState
        "abc123" = none
    ∧ lookupSt (syncInstanceFlows id "inst" [] [("abc123", entryEx)] []).persistedState
        "abc123" = some entryEx := by decide

/-- C3 (amended): for every entry deleted upstream — in particular when
its archival move fails — the cycle is not aborted and the entry is
dropped from the in-memory state; the id is absent from the state
persisted at the end of the cycle provided the cycle produced at least
one write or successful archival (otherwise the state file is not
rewritten and the stale entry remains until a later cycle with changes). -/
theorem archival_failure_state_dropped (reformat : String → String) (inst : String)
    (flows : List Flow) (lastState : StateMap) (fs : FS)
    (p : String × StateEntry) (hp : p ∈ deletedEntries flows lastState) :
    lookupSt (syncInstanceFlows reformat inst flows lastState fs).newState p.1 = none
    ∧ ((syncInstanceFlows reformat inst flows lastState fs).changedFiles ≠ []
        ∨ (syncInstanceFlows reformat inst flows lastState fs).movedFiles ≠ [] →
        lookupSt (syncInstanceFlows reformat inst flows lastState fs).persistedState p.1
          = none) := by
  simp only [deletedEntries] at hp
  have hmf := List.mem_filter.mp hp
  have hmem : memStr p.1 (flows.map Flow.id) = false := by
    have h2' := hmf.2
    simpa using h2'
  have hdrop : lookupSt (syncInstanceFlows reformat inst flows lastState fs).newState p.1
      = none := by
    rw [syncInstanceFlows_newState]
    exact processDeletions_removed inst _ lastState _ _ _ p hmf.1 hmem
  refine ⟨hdrop, ?_⟩
  intro hne
  rw [syncInstanceFlows_persistedState]
  have hcond : ((syncInstanceFlows reformat inst flows lastState fs).changedFiles.length > 0
      || (syncInstanceFlows reformat inst flows lastState fs).movedFiles.length > 0) = true := by
    rcases hne with h | h
    · simp [List.length_pos.mpr h]
    · simp [List.length_pos.mpr h]
  rw [if_pos hcond]
  exact hdrop

/-- Witness for C3's amended theorem at a concrete input: a new flow
with a different name is written, while the vanished id's recorded file
(`Test_Flow_id_c123.json`) is absent from the file system, so its move
fails and nothing is archived; the cycle still has a write, so the state
is saved and the persisted state drops the id. -/
theorem archival_failure_state_dropped_witness :
    ("zzz999", entryEx) ∈ deletedEntries
        [⟨"bbb777", "Other Flow", some "\x7b\"a\":1\x7d", "T1", some "chatflow"⟩]
        [("zzz999", entryEx)]
    ∧ (syncInstanceFlows id "inst"
        [⟨"bbb777", "Other Flow", some "\x7b\"a\":1\x7d", "T1", some "chatflow"⟩]
        [("zzz999", entryEx)] []).movedFiles = []
    ∧ (syncInstanceFlows id "inst"
        [⟨"bbb777", "Other Flow", some "\x7b\"a\":1\x7d", "T1", some "chatflow"⟩]
        [("zzz999", entryEx)] []).changedFiles ≠ []
    ∧ lookupSt (syncInstanceFlows id "inst"
        [⟨"bbb777", "Other Flow", some "\x7b\"a\":1\x7d", "T1", some "chatflow"⟩]
        [("zzz999", entryEx)] []).persistedState "zzz999" = none :=
  ⟨by decide, by decide, by decide,
    (archival_failure_state_dropped id "inst"
      [⟨"bbb777", "Other Flow", some "\x7b\"a\":1\x7d", "T1", some "chatflow"⟩]
      [("zzz999", entryEx)] [] ("zzz999", entryEx) (by decide)).2 (Or.inl (by decide))⟩

/-- C4: Change detection accuracy.  For an entity recorded in `lastState`
all of whose fetched occurrences carry the recorded `updatedDate`,
reconciliation emits no write for that entity no matter how many times it
is fetched: the write list equals the write list of the run in which all
its occurrences are removed from the remote collection. -/
theorem unchanged_updatedDate_no_write (reformat : String → String) (inst : String)
    (flows : List Flow) (lastState : StateMap) (fs : FS) (i : String) (e : StateEntry)
    (he : lookupSt lastState i = some e)
    (hsame : ∀ f ∈ flows, f.id = i → f.updatedDate = e.updatedDate) :
    (syncInstanceFlows reformat inst flows lastState fs).changedFiles
      = (syncInstanceFlows reformat inst (flows.filter (fun f => decide (f.id ≠ i)))
          lastState fs).changedFiles := by
  rw [syncInstanceFlows_changedFiles, syncInstanceFlows_changedFiles,
    processFlows_changed, processFlows_changed, List.nil_append, List.nil_append,
    List.filter_filter]
  congr 1
  apply List.filter_congr
  intro f hf
  by_cases hfi : f.id = i
  · have hw : needsWrite lastState f = false := by
      simp [needsWrite, hfi, he, hsame f hf hfi]
    simp [hw, hfi]
  · simp [hfi]

/-- Witness for C4 at a concrete input: the same unchanged entity fetched
twice produces the same (empty) write list as not fetching it at all. -/
theorem unchanged_updatedDate_no_write_witness :
    lookupSt [("abc123", entryEx)] "abc123" = some entryEx
    ∧ (∀ f ∈ [flowEx, flowEx], f.id = "abc123" → f.updatedDate = entryEx.updatedDate)
    ∧ (syncInstanceFlows id "inst" [flowEx, flowEx] [("abc123", entryEx)] []).changedFiles
        = (syncInstanceFlows id "inst"
            ([flowEx, flowEx].filter (fun f => decide (f.id ≠ "abc123")))
            [("abc123", entryEx)] []).changedFiles :=
  ⟨by decide, by decide,
    unchanged_updatedDate_no_write id "inst" [flowEx, flowEx] [("abc123", entryEx)] []
      "abc123" entryEx (by decide) (by decide)⟩

/-- C5 counterexample: on the claimed scenario the write goes to
`flows/inst/chatflow/Test_Flow_id_c123.json` — `"abc123".slice(-4)` is
`"c123"`, not the claimed `"3123"` — and no file exists at the claimed
path ending in `_id_3123.json`. -/
theorem new_entity_scenario_counterexample :
    (syncInstanceFlows id "inst" [flowEx] [] []).changedFiles
      = ["flows/inst/chatflow/Test_Flow_id_c123.json"]
    ∧ "flows/inst/chatflow/Test_Flow_id_c123.json"
        ≠ "flows/inst/chatflow/Test_Flow_id_3123.json"
    ∧ lookupFS (syncInstanceFlows id "inst" [flowEx] [] []).fs
        "/repo/flows/inst/chatflow/Test_Flow_id_3123.json" = none := by decide

/-- C5 (amended): given the remote collection
`[{id:"abc123", name:"Test Flow", flowData:"{\"a\":1}", updatedDate:"T1", type:"chatflow"}]`
and an empty last state, reconciliation writes the reformatted payload to
`flows/inst/chatflow/Test_Flow_id_c123.json` (the id suffix is the last
four characters `c123`) and the returned state maps `abc123` to an entry
with `updatedDate` `T1`. -/
theorem new_entity_scenario (reformat : String → String) :
    (syncInstanceFlows reformat "inst" [flowEx] [] []).changedFiles
      = ["flows/inst/chatflow/Test_Flow_id_c123.json"]
    ∧ lookupFS (syncInstanceFlows reformat "inst" [flowEx] [] []).fs
        "/repo/flows/inst/chatflow/Test_Flow_id_c123.json"
        = some (reformat "\x7b\"a\":1\x7d")
    ∧ lookupSt (syncInstanceFlows reformat "inst" [flowEx] [] []).newState "abc123"
        = some entryEx :=
  ⟨rfl, rfl, rfl⟩

/-- C6 counterexample: a successful archival pushes `destinationPath`, an
absolute path (it begins with the root separator and carries the
repository directory prefix), so the archival results are not returned as
repository-relative paths. -/
theorem result_path_counterexample :
    (syncInstanceFlows id "inst" [] [("abc123", entryEx)]
        [("/repo/flows/inst/chatflow/Test_Flow_id_c123.json", "X")]).movedFiles
      = ["/repo/flows/inst/chatflow/deleted/Test_Flow_id_c123.json"]
    ∧ "/repo/flows/inst/chatflow/deleted/Test_Flow_id_c123.json".data.head? = some '/' := by
  decide

/-- C6 (amended): reconciliation returns the write results as
repository-relative paths of the form `flows/<instance>/...`, but the
archival results as absolute destination paths of the form
`<REPO_PATH>/flows/<instance>/...`. -/
theorem result_path_forms (reformat : String → String) (inst : String)
    (flows : List Flow) (lastState : StateMap) (fs : FS) :
    (∀ q ∈ (syncInstanceFlows reformat inst flows lastState fs).changedFiles,
        ∃ s, q = "flows/" ++ inst ++ "/" ++ s)
    ∧ (∀ q ∈ (syncInstanceFlows reformat inst flows lastState fs).movedFiles,
        ∃ s, q = REPO_PATH ++ "/flows/" ++ inst ++ "/" ++ s) := by
  constructor
  · intro q hq
    rw [syncInstanceFlows_changedFiles, processFlows_changed, List.nil_append] at hq
    obtain ⟨f, hf, rfl⟩ := List.mem_map.mp hq
    exact ⟨flowTypeOf f.type ++ "/" ++ uniqueFileName f.name f.id,
      by simp [relPathOf, String.append_assoc]⟩
  · intro q hq
    rw [syncInstanceFlows_movedFiles] at hq
    rcases processDeletions_moved_sub inst _ lastState _ _ _ q hq with h | ⟨p, hp, rfl⟩
    · exact absurd h (List.not_mem_nil q)
    · exact ⟨archiveTypeOf p.2 ++ "/deleted/" ++ archiveFileName p.1 p.2,
        by simp [destPathOf, instanceDirOf, String.append_assoc]⟩

/-- Witness for C6's amended theorem at a concrete input. -/
theorem result_path_forms_witness :
    "flows/inst/chatflow/Test_Flow_id_c123.json"
      ∈ (syncInstanceFlows id "inst" [flowEx] [] []).changedFiles
    ∧ ∃ s, "flows/inst/chatflow/Test_Flow_id_c123.json" = "flows/" ++ "inst" ++ "/" ++ s :=
  ⟨by decide,
    (result_path_forms id "inst" [flowEx] [] []).1
      "flows/inst/chatflow/Test_Flow_id_c123.json" (by decide)⟩

/-- C7: Commit gating and message format.  A sweep commits exactly when
the aggregated diff across all instances is non-empty, and the commit
message is `Sync: <N> updated, <M> archived flow(s)` with the total write
count `N` and total archival count `M`, omitting either clause when its
count is zero. -/
theorem commit_gating_and_message (results : List (List String × List String)) :
    (syncFlowsCommit results = none ↔
      (allChangedOf results).length = 0 ∧ (allMovedOf results).length = 0)
    ∧ ((allChangedOf results).length ≠ 0 → (allMovedOf results).length ≠ 0 →
        syncFlowsCommit results
          = some ("Sync: " ++ toString (allChangedOf results).length
              ++ " updated, " ++ toString (allMovedOf results).length
              ++ " archived flow(s)"))
    ∧ ((allChangedOf results).length ≠ 0 → (allMovedOf results).length = 0 →
        syncFlowsCommit results
          = some ("Sync: " ++ toString (allChangedOf results).length
              ++ " updated flow(s)"))
    ∧ ((allChangedOf results).length = 0 → (allMovedOf results).length ≠ 0 →
        syncFlowsCommit results
          = some ("Sync: " ++ toString (allMovedOf results).length
              ++ " archived flow(s)")) := by
  refine ⟨?_, ?_, ?_, ?_⟩
  · constructor
    · intro h
      by_contra hc
      rw [not_and_or] at hc
      have hcond : (decide ((allChangedOf results).length > 0)
          || decide ((allMovedOf results).length > 0)) = true := by
        rcases hc with hn | hm
        · simp [Nat.pos_of_ne_zero hn]
        · simp [Nat.pos_of_ne_zero hm]
      simp [syncFlowsCommit, hcond] at h
    · rintro ⟨hn, hm⟩
      simp [syncFlowsCommit, hn, hm]
  · intro hn hm
    simp only [syncFlowsCommit, commitMessage, Nat.pos_of_ne_zero hn,
      Nat.pos_of_ne_zero hm, decide_True, Bool.true_or, if_true, if_pos,
      List.singleton_append, joinParts, Option.some.injEq]
    apply String.ext
    simp [List.append_assoc]
  · intro hn hm
    simp only [syncFlowsCommit, commitMessage, Nat.pos_of_ne_zero hn, hm,
      decide_True, Bool.true_or, if_true, if_pos, Nat.lt_irrefl, if_neg,
      List.append_nil, joinParts, Option.some.injEq]
    apply String.ext
    simp [List.append_assoc]
  · intro hn hm
    have hcond : (decide ((allChangedOf results).length > 0)
        || decide ((allMovedOf results).length > 0)) = true := by
      simp [Nat.pos_of_ne_zero hm]
    simp only [syncFlowsCommit]
    rw [if_pos hcond]
    simp only [commitMessage]
    rw [hn, if_neg (Nat.lt_irrefl 0), if_pos (Nat.pos_of_ne_zero hm), List.nil_append]
    simp only [joinParts, Option.some.injEq]
    apply String.ext
    simp [List.append_assoc]

/-- Witness for C7 at a concrete input: one write and one archival. -/
theorem commit_gating_and_message_witness :
    (allChangedOf [(["a"], ["b"])]).length ≠ 0
    ∧ (allMovedOf [(["a"], ["b"])]).length ≠ 0
    ∧ syncFlowsCommit [(["a"], ["b"])] = some "Sync: 1 updated, 1 archived flow(s)" := by
  refine ⟨by decide, by decide, ?_⟩
  have h := (commit_gating_and_message [(["a"], ["b"])]).2.1 (by decide) (by decide)
  rw [h]
  rfl

/-- C8: Payload-less entities are skipped without side effects.  For a
fetched entity without a payload body (no other occurrence of its id
having one), reconciliation emits no write for it (the write list equals
the one of the run with its occurrences removed), does not treat it as
deleted, and leaves any previously recorded state entry for its id
unchanged in the new state. -/
theorem payloadless_skipped (reformat : String → String) (inst : String)
    (flows : List Flow) (lastState : StateMap) (fs : FS) (f : Flow)
    (hf : f ∈ flows) (hnd : hasFlowData f = false)
    (honly : ∀ g ∈ flows, g.id = f.id → hasFlowData g = false) :
    (syncInstanceFlows reformat inst flows lastState fs).changedFiles
      = (syncInstanceFlows reformat inst (flows.filter (fun g => decide (g.id ≠ f.id)))
          lastState fs).changedFiles
    ∧ f.id ∉ (deletedEntries flows lastState).map Prod.fst
    ∧ lookupSt (syncInstanceFlows reformat inst flows lastState fs).newState f.id
        = lookupSt lastState f.id := by
  refine ⟨?_, ?_, ?_⟩
  · rw [syncInstanceFlows_changedFiles, syncInstanceFlows_changedFiles,
      processFlows_changed, processFlows_changed, List.nil_append, List.nil_append,
      List.filter_filter]
    congr 1
    apply List.filter_congr
    intro g hg
    by_cases hgi : g.id = f.id
    · have hgd := honly g hg hgi
      simp [hgd]
    · simp [hgi]
  · intro hmem
    simp only [deletedEntries] at hmem
    obtain ⟨p, hp, hpe⟩ := List.mem_map.mp hmem
    have hfil := List.mem_filter.mp hp
    have hmemtrue : memStr p.1 (flows.map Flow.id) = true :=
      (memStr_iff _ _).mpr (hpe ▸ List.mem_map_of_mem Flow.id hf)
    have h2' := hfil.2
    rw [hmemtrue] at h2'
    exact Bool.false_ne_true h2'
  · rw [syncInstanceFlows_newState]
    have hmem : memStr f.id (flows.map Flow.id) = true :=
      (memStr_iff _ _).mpr (List.mem_map_of_mem Flow.id hf)
    rw [processDeletions_keep inst _ f.id hmem lastState _ _ _]
    exact processFlows_lookup_frame reformat inst lastState f.id flows lastState fs [] honly

/-- Witness for C8 at a concrete input: a payload-less entity with a
stale recorded `updatedDate` produces no write, no archival, and its
recorded entry survives unchanged. -/
theorem payloadless_skipped_witness :
    (⟨"abc123", "Test Flow", none, "T9", some "chatflow"⟩ : Flow)
      ∈ [(⟨"abc123", "Test Flow", none, "T9", some "chatflow"⟩ : Flow)]
    ∧ lookupSt (syncInstanceFlows id "inst"
        [⟨"abc123", "Test Flow", none, "T9", some "chatflow"⟩]
        [("abc123", entryEx)] []).newState "abc123"
      = lookupSt [("abc123", entryEx)] "abc123" :=
  ⟨by decide,
    (payloadless_skipped id "inst" [⟨"abc123", "Test Flow", none, "T9", some "chatflow"⟩]
      [("abc123", entryEx)] [] ⟨"abc123", "Test Flow", none, "T9", some "chatflow"⟩
      (by decide) (by decide) (by decide)).2.2⟩

/-- C9: Missing or corrupt state tolerance.  When the state file is
absent or its content fails to parse, the loaded state is the empty
mapping, and the cycle then performs no archivals and writes every
payload-bearing remote entity (treating it as new). -/
theorem missing_state_tolerance (parse : String → Option StateMap)
    (content : Option String) (reformat : String → String) (inst : String)
    (flows : List Flow) (fs : FS)
    (h : content = none ∨ ∃ s, content = some s ∧ parse s = none) :
    getLastKnownState parse content = []
    ∧ (syncInstanceFlows reformat inst flows (getLastKnownState parse content) fs).movedFiles
        = []
    ∧ (syncInstanceFlows reformat inst flows (getLastKnownState parse content) fs).changedFiles
        = (flows.filter hasFlowData).map (relPathOf inst) := by
  have hempty : getLastKnownState parse content = [] := by
    rcases h with h | ⟨s, hs, hp⟩
    · simp [getLastKnownState, h]
    · simp [getLastKnownState, hs, hp]
  refine ⟨hempty, ?_, ?_⟩
  · rw [hempty, syncInstanceFlows_movedFiles]
    simp [processDeletions]
  · rw [hempty, syncInstanceFlows_changedFiles, processFlows_changed, List.nil_append]
    congr 1
    apply List.filter_congr
    intro f hf
    simp [needsWrite, lookupSt]

/-- Witness for C9 at a concrete input: state file absent. -/
theorem missing_state_tolerance_witness :
    ((none : Option String) = none
      ∨ ∃ s, (none : Option String) = some s
          ∧ (fun (_ : String) => (none : Option StateMap)) s = none)
    ∧ (getLastKnownState (fun (_ : String) => (none : Option StateMap)) none = []
       ∧ (syncInstanceFlows id "inst" [flowEx]
            (getLastKnownState (fun (_ : String) => (none : Option StateMap)) none)
            []).movedFiles = []
       ∧ (syncInstanceFlows id "inst" [flowEx]
            (getLastKnownState (fun (_ : String) => (none : Option StateMap)) none)
            []).changedFiles = ([flowEx].filter hasFlowData).map (relPathOf "inst")) :=
  ⟨Or.inl rfl,
    missing_state_tolerance (fun _ => none) none id "inst" [flowEx] [] (Or.inl rfl)⟩

/-- C10: Category normalization.  A processed entity's recorded state
entry carries the lowercased form of its type (`uncategorized` when the
type is absent or empty), the write for it lands in the directory named
by that category, and two non-empty types differing only in letter case
normalize to the same category. -/
theorem category_normalization (reformat : String → String) (inst : String)
    (flows : List Flow) (lastState : StateMap) (fs : FS) (f : Flow)
    (hf : f ∈ flows) (hd : hasFlowData f = true)
    (hids : (flows.map Flow.id).Nodup) :
    (lookupSt (syncInstanceFlows reformat inst flows lastState fs).newState f.id).map
        StateEntry.type = some (flowTypeOf f.type)
    ∧ (needsWrite lastState f = true →
        ("flows/" ++ inst ++ "/" ++ flowTypeOf f.type ++ "/" ++ uniqueFileName f.name f.id)
          ∈ (syncInstanceFlows reformat inst flows lastState fs).changedFiles)
    ∧ (∀ s : String, s ≠ "" → flowTypeOf (some s) = strToLower s)
    ∧ flowTypeOf none = "uncategorized"
    ∧ (∀ s t : String, s ≠ "" → t ≠ "" → strToLower s = strToLower t →
        flowTypeOf (some s) = flowTypeOf (some t)) := by
  refine ⟨?_, ?_, ?_, by decide, ?_⟩
  · rw [syncInstanceFlows_newState]
    have hmem : memStr f.id (flows.map Flow.id) = true :=
      (memStr_iff _ _).mpr (List.mem_map_of_mem Flow.id hf)
    rw [processDeletions_keep inst _ f.id hmem lastState _ _ _]
    rw [processFlows_lookup_mem reformat inst lastState f flows lastState fs [] hids hf hd]
    rfl
  · intro hw
    rw [syncInstanceFlows_changedFiles, processFlows_changed, List.nil_append]
    have hmemf : f ∈ flows.filter (fun g => hasFlowData g && needsWrite lastState g) :=
      List.mem_filter.mpr ⟨hf, by simp [hd, hw]⟩
    exact List.mem_map_of_mem (relPathOf inst) hmemf
  · intro s hs
    simp [flowTypeOf, hs]
  · intro s t hs ht hst
    simp [flowTypeOf, hs, ht, hst]

/-- Witness for C10 at a concrete input: a mixed-case type `ChatFlow` is
recorded as the lowercased category `chatflow`. -/
theorem category_normalization_witness :
    (([⟨"abc123", "Test Flow", some "\x7b\"a\":1\x7d", "T1", some "ChatFlow"⟩] :
        List Flow).map Flow.id).Nodup
    ∧ (lookupSt (syncInstanceFlows id "inst"
        [⟨"abc123", "Test Flow", some "\x7b\"a\":1\x7d", "T1", some "ChatFlow"⟩]
        [] []).newState "abc123").map StateEntry.type
      = some (flowTypeOf (some "ChatFlow")) :=
  ⟨by decide,
    (category_normalization id "inst"
      [⟨"abc123", "Test Flow", some "\x7b\"a\":1\x7d", "T1", some "ChatFlow"⟩] [] []
      ⟨"abc123", "Test Flow", some "\x7b\"a\":1\x7d", "T1", some "ChatFlow"⟩
      (by decide) (by decide) (by decide)).1⟩

end FlowSync
